import Mathlib

/-!
Verification of the per-function code generation engine
(`src/CodeGen/CodeGenFunction.cpp`): a shallow embedding of the
per-function state (blocks, label map, break/continue stack, allocation
anchor) and of the pure ABI derivations (linkage, parameter attributes,
aggregate-type classification), together with theorems settling the
spec's claims about them.
-/

namespace CodeGenFunction

/-! ## Type classification

Shallow embedding of the `QualType` predicates consulted by
`hasAggregateLLVMType` (CodeGenFunction.cpp lines 53-56).  Each
constructor is one of the type categories the C++ predicates
distinguish; `recordTy`, `complexTy` and `arrayTy` are the categories
for which none of the six negated predicates fires. -/

inductive QualTypeKind where
  | realTy
  | pointerTy
  | referenceTy
  | voidTy
  | vectorTy
  | functionTy
  | recordTy
  | complexTy
  | arrayTy
  deriving DecidableEq, Repr

namespace QualTypeKind

def isRealType : QualTypeKind → Bool
  | .realTy => true
  | _ => false

def isPointerType : QualTypeKind → Bool
  | .pointerTy => true
  | _ => false

def isReferenceType : QualTypeKind → Bool
  | .referenceTy => true
  | _ => false

def isVoidType : QualTypeKind → Bool
  | .voidTy => true
  | _ => false

def isVectorType : QualTypeKind → Bool
  | .vectorTy => true
  | _ => false

def isFunctionType : QualTypeKind → Bool
  | .functionTy => true
  | _ => false

end QualTypeKind

/-- `CodeGenFunction::hasAggregateLLVMType` (lines 53-56): a type is
aggregate iff it is none of real, pointer, reference, void, vector or
function type. -/
def hasAggregateLLVMType (T : QualTypeKind) : Bool :=
  !T.isRealType && !T.isPointerType && !T.isReferenceType &&
  !T.isVoidType && !T.isVectorType && !T.isFunctionType

/-! ## Declaration metadata and ABI derivation -/

/-- The declaration attributes `GenerateCode` consults: presence of the
`DLLImportAttr` / `DLLExportAttr` / `WeakAttr` / `NoThrowAttr` /
`NoReturnAttr` markers, `isInline`, static storage class, the result
type and the declared parameter count of the `FunctionDecl`. -/
structure FunctionDeclInfo where
  dllImportAttr : Bool
  dllExportAttr : Bool
  weakAttr : Bool
  isInline : Bool
  staticStorage : Bool
  noThrowAttr : Bool
  noReturnAttr : Bool
  resultType : QualTypeKind
  numParams : Nat
  deriving DecidableEq, Repr

/-- The LLVM linkage kinds appearing in `GenerateCode`; `external` is
the default linkage an LLVM function carries when none of the
`setLinkage` calls fires. -/
inductive Linkage where
  | external
  | dllimport
  | dllexport
  | weak
  | internal
  deriving DecidableEq, Repr

/-- The if/else-if chain of lines 71-78: first match wins; when no
branch fires the function keeps its default `external` linkage. -/
def deriveLinkage (fd : FunctionDeclInfo) : Linkage :=
  if fd.dllImportAttr then .dllimport
  else if fd.dllExportAttr then .dllexport
  else if fd.weakAttr || fd.isInline then .weak
  else if fd.staticStorage then .internal
  else .external

/-- The two LLVM parameter attributes lines 85-95 can push. -/
inductive ParamAttr where
  | noUnwind
  | noReturnAttr
  deriving DecidableEq, Repr

/-- Lines 85-95: build `ParamAttrsVec` by pushing
`(ParamAttrsVec.size(), NoUnwind)` when `NoThrowAttr` is present and
then `(ParamAttrsVec.size(), NoReturn)` when `NoReturnAttr` is present;
the first component is the positional index used by
`ParamAttrsWithIndex::get`. -/
def deriveParamAttrs (fd : FunctionDeclInfo) : List (Nat × ParamAttr) :=
  let v : List (Nat × ParamAttr) := []
  let v := if fd.noThrowAttr then v ++ [(v.length, ParamAttr.noUnwind)] else v
  let v := if fd.noReturnAttr then v ++ [(v.length, ParamAttr.noReturnAttr)] else v
  v

/-- Lines 112-116: the implicit struct-return argument is named
`agg.result` exactly when the result type is aggregate. -/
def sretArgName (fd : FunctionDeclInfo) : Option String :=
  if hasAggregateLLVMType fd.resultType then some "agg.result" else none

/-- Lines 112-121: index of the IR argument the first declared
parameter binds to — `1` when an `agg.result` argument was consumed
first, else `0`. -/
def firstParamArgIndex (fd : FunctionDeclInfo) : Nat :=
  if hasAggregateLLVMType fd.resultType then 1 else 0

/-! ## Blocks and per-function CFG state

Basic blocks are kept in an arena indexed by stable numeric ids
(`nextId` is the next fresh id); `fnBlocks` is the function's block
ordering (`llvm::Function`'s basic-block list), so a block present in
the arena but not in `fnBlocks` models a created-but-not-inserted
`llvm::BasicBlock`.  Predecessors are derived from branch instructions
of inserted blocks, mirroring LLVM's use-list based `pred_begin`. -/

/-- Instructions, at the granularity the claims need: the allocation
anchor (`allocapt` bitcast, lines 103-105), the three possible
terminators of the fallthrough step (`RetVoid`, `Ret undef`; `retZero`
is the zero-initialized return the code could have produced instead but
does not), branches (the only instructions inducing predecessor edges),
and opaque non-branching instructions. -/
inductive Inst where
  | allocaMarker
  | retVoid
  | retUndef (ty : QualTypeKind)
  | retZero (ty : QualTypeKind)
  | br (target : Nat)
  | condBr (cond : Nat) (thenTarget : Nat) (elseTarget : Nat)
  | other (tag : Nat)
  deriving DecidableEq, Repr

/-- Block ids an instruction branches to (the successor edges it
induces). -/
def Inst.targets : Inst → List Nat
  | .br t => [t]
  | .condBr _ t e => [t, e]
  | _ => []

/-- Whether an instruction is a return synthesized by the fallthrough
step. -/
def Inst.isRet : Inst → Bool
  | .retVoid => true
  | .retUndef _ => true
  | .retZero _ => true
  | _ => false

/-- An `llvm::BasicBlock`: a name and an ordered instruction
sequence. -/
structure BasicBlock where
  name : String
  insts : List Inst
  deriving DecidableEq, Repr

/-- A break/continue frame (`BreakContinueStack` entry): break target
plus an optional continue target (absent for switch frames). -/
structure BreakContinue where
  breakTarget : Nat
  continueTarget : Option Nat
  deriving DecidableEq, Repr

/-- Association-list lookup in the block arena. -/
def lookupBlock : List (Nat × BasicBlock) → Nat → Option BasicBlock
  | [], _ => none
  | p :: ps, b => if p.1 = b then some p.2 else lookupBlock ps b

/-- Association-list lookup in the label map (`LabelMap[S]`). -/
def lookupLabel : List (Nat × Nat) → Nat → Option Nat
  | [], _ => none
  | q :: qs, l => if q.1 = l then some q.2 else lookupLabel qs l

/-- The per-function mutable state of `CodeGenFunction`: block arena,
the function's block ordering, the builder's current insertion block,
`LabelMap` (keyed by the identity of the `LabelStmt`), and
`BreakContinueStack`. -/
structure CGState where
  blocks : List (Nat × BasicBlock)
  fnBlocks : List Nat
  curBlock : Nat
  labelMap : List (Nat × Nat)
  breakContinueStack : List BreakContinue
  nextId : Nat
  deriving DecidableEq, Repr

namespace CGState

/-- Find a block in the arena by id. -/
def findBlock (s : CGState) (b : Nat) : Option BasicBlock :=
  lookupBlock s.blocks b

/-- Does an inserted block `a` hold an instruction branching to `b`? -/
def feedsInto (s : CGState) (a b : Nat) : Bool :=
  match s.findBlock a with
  | some blk => blk.insts.any (fun i => decide (b ∈ Inst.targets i))
  | none => false

/-- The predecessor list of block `b`: inserted blocks holding a branch
to `b` (LLVM's `pred_begin`/`pred_end` range). -/
def preds (s : CGState) (b : Nat) : List Nat :=
  s.fnBlocks.filter (fun a => s.feedsInto a b)

/-- `CodeGenFunction::isDummyBlock` (lines 151-155): true iff the block
is empty and has no predecessors. -/
def isDummyBlock (s : CGState) (b : Nat) : Bool :=
  match s.findBlock b with
  | some blk => blk.insts.isEmpty && (s.preds b).isEmpty
  | none => false

/-- Create, but do not insert, a new block (`new llvm::BasicBlock(N)`
with no parent function): it enters the arena with a fresh id but not
`fnBlocks`. -/
def newBlock (s : CGState) (n : String) : CGState × Nat :=
  ({ s with
      blocks := s.blocks ++ [(s.nextId, { name := n, insts := [] })]
      nextId := s.nextId + 1 },
   s.nextId)

/-- Shared shape of renaming, instruction insertion and anchor removal:
rewrite the arena entries carrying the given id. -/
def modifyBlock (s : CGState) (b : Nat) (f : BasicBlock → BasicBlock) :
    CGState :=
  { s with
      blocks := s.blocks.map fun p => if p.1 = b then (p.1, f p.2) else p }

/-- Rename a block in place (`BB->setName(N)`). -/
def renameBlock (s : CGState) (b : Nat) (n : String) : CGState :=
  s.modifyBlock b fun blk => { blk with name := n }

/-- Append an instruction at the end of a block (the builder's insert
position after `SetInsertPoint(BB)` with everything emitted at the
end). -/
def appendInst (s : CGState) (b : Nat) (i : Inst) : CGState :=
  s.modifyBlock b fun blk => { blk with insts := blk.insts ++ [i] }

/-- `BB->eraseFromParent()`: the block leaves both the arena and the
function's block ordering. -/
def eraseBlock (s : CGState) (b : Nat) : CGState :=
  { s with
      blocks := s.blocks.filter (fun p => p.1 ≠ b)
      fnBlocks := s.fnBlocks.filter (fun a => a ≠ b) }

/-- Modelled from the spec: `EmitBlock` lives in the statement-emitter
collaborator, not in this file; per §4.2 `StartBlock` "otherwise
create(s) a new block and switch(es) to it", so `EmitBlock BB` inserts
`BB` into the function's block ordering and moves the insertion cursor
to it. -/
def EmitBlock (s : CGState) (b : Nat) : CGState :=
  { s with fnBlocks := s.fnBlocks ++ [b], curBlock := b }

/-- `CodeGenFunction::StartBlock` (lines 159-165): if the insert block
is not dummy, create a new block and `EmitBlock` it; else rename the
insert block in place. -/
def StartBlock (s : CGState) (n : String) : CGState :=
  if !s.isDummyBlock s.curBlock then
    let p := s.newBlock n
    p.1.EmitBlock p.2
  else
    s.renameBlock s.curBlock n

/-- `CodeGenFunction::getBasicBlockForLabel` (lines 36-42): return the
block already mapped to this label, or create (without inserting) a
fresh block named after the label and record it. -/
def getBasicBlockForLabel (s : CGState) (l : Nat) (n : String) :
    CGState × Nat :=
  match lookupLabel s.labelMap l with
  | some b => (s, b)
  | none =>
    let p := s.newBlock n
    ({ p.1 with labelMap := (l, p.2) :: p.1.labelMap }, p.2)

/-- Lines 126-137: the fallthrough step after the body emitter
returns.  If the insert block is dummy, erase it; otherwise synthesize
exactly one terminator — `RetVoid` when the return type is void, else
`Ret (UndefValue::get(returnType))`. -/
def emitFallthroughReturn (s : CGState) (retTy : QualTypeKind) : CGState :=
  let bb := s.curBlock
  if s.isDummyBlock bb then
    s.eraseBlock bb
  else if retTy = .voidTy then
    s.appendInst bb .retVoid
  else
    s.appendInst bb (.retUndef retTy)

/-- Push a break/continue frame (construct entry). -/
def pushFrame (s : CGState) (f : BreakContinue) : CGState :=
  { s with breakContinueStack := f :: s.breakContinueStack }

/-- Pop the top break/continue frame (construct exit); popping an empty
stack is the upstream emitter's bug, modelled as failure. -/
def popFrame (s : CGState) : Option CGState :=
  match s.breakContinueStack with
  | [] => none
  | _ :: rest => some { s with breakContinueStack := rest }

/-- Remove the first occurrence of the allocation anchor from an
instruction sequence (`AllocaInsertPt->eraseFromParent()`). -/
def removeMarker : List Inst → List Inst
  | [] => []
  | i :: is => if i = Inst.allocaMarker then is else i :: removeMarker is

end CGState

/-- The id of the entry block, the first block created by
`GenerateCode`. -/
def entryBlockId : Nat := 0

/-- Lines 141-143: erase the `allocapt` anchor instruction from the
entry block once generation is done. -/
def CGState.removeAllocaMarker (s : CGState) : CGState :=
  s.modifyBlock entryBlockId fun blk =>
    { blk with insts := CGState.removeMarker blk.insts }

/-- The state right after lines 98-107: one inserted block named
`entry` whose only instruction is the allocation anchor, the builder
positioned in it, label map and break/continue stack empty. -/
def entryState : CGState :=
  { blocks := [(entryBlockId, { name := "entry", insts := [Inst.allocaMarker] })]
    fnBlocks := [entryBlockId]
    curBlock := entryBlockId
    labelMap := []
    breakContinueStack := []
    nextId := 1 }

/-! ## The collaborator emitter's control-stack trace

`EmitStmt` is an external collaborator; its effect on
`BreakContinueStack` is a sequence of pushes (construct entries) and
pops (construct exits). -/

/-- One control-stack action performed during body emission. -/
inductive StackOp where
  | pushOp (f : BreakContinue)
  | popOp
  deriving DecidableEq, Repr

/-- Run a control-stack trace on a stack; a pop on an empty stack is an
emitter bug, modelled as failure. -/
def runStackOps : List StackOp → List BreakContinue → Option (List BreakContinue)
  | [], st => some st
  | StackOp.pushOp f :: ops, st => runStackOps ops (f :: st)
  | StackOp.popOp :: ops, st =>
    match st with
    | [] => none
    | _ :: rest => runStackOps ops rest

/-- Traces in which every pushed frame is popped by its own construct's
exit: empty, a frame wrapped around a balanced trace, or two balanced
traces in sequence. -/
inductive BalancedOps : List StackOp → Prop where
  | nil : BalancedOps []
  | frame (f : BreakContinue) {a : List StackOp} :
      BalancedOps a → BalancedOps (StackOp.pushOp f :: a ++ [StackOp.popOp])
  | seq {a b : List StackOp} :
      BalancedOps a → BalancedOps b → BalancedOps (a ++ b)

/-- The control-stack trace of `N` uniformly nested loops, each
followed by its natural exit: `N` pushes, then `N` pops. -/
def nestedLoopOps : Nat → List StackOp
  | 0 => []
  | n + 1 =>
    StackOp.pushOp { breakTarget := n, continueTarget := some n } ::
      nestedLoopOps n ++ [StackOp.popOp]

/-- Run a control-stack trace against the full per-function state using
`pushFrame`/`popFrame`. -/
def CGState.applyStackOps (s : CGState) : List StackOp → Option CGState
  | [] => some s
  | StackOp.pushOp f :: ops => (s.pushFrame f).applyStackOps ops
  | StackOp.popOp :: ops =>
    match s.popFrame with
    | none => none
    | some s' => s'.applyStackOps ops

/-! ## GenerateCode -/

/-- The fatal assertion failures of `GenerateCode`: re-generation of an
existing body (line 67), IR argument count mismatch (line 119), and an
unbalanced break/continue stack (lines 138-139). -/
inductive GenError where
  | preconditionViolation
  | argumentMismatch
  | controlStackImbalance
  deriving DecidableEq, Repr

/-- What `GenerateCode` leaves behind on success: the linkage and
parameter attributes applied to the IR function, the struct-return
argument name if any, the IR argument index where declared parameters
start binding, and the final per-function state. -/
structure GenOutput where
  linkage : Linkage
  paramAttrs : List (Nat × ParamAttr)
  sretName : Option String
  paramFirst : Nat
  finalState : CGState
  deriving DecidableEq, Repr

/-- `CodeGenFunction::GenerateCode` (lines 59-147), with the
collaborator statement emitter abstracted as `emitBody`:
assert the target function is still a declaration; derive linkage and
parameter attributes; set up the entry block with the allocation
anchor; bind the `agg.result` argument and the declared parameters
(asserting the IR argument count suffices); emit the body; run the
fallthrough step; assert the break/continue stack is empty; and only
then remove the allocation anchor. -/
def generateCode (fd : FunctionDeclInfo) (curFnIsDeclaration : Bool)
    (numIRArgs : Nat) (emitBody : CGState → CGState) :
    Except GenError GenOutput :=
  if !curFnIsDeclaration then
    Except.error GenError.preconditionViolation
  else if numIRArgs < firstParamArgIndex fd + fd.numParams then
    Except.error GenError.argumentMismatch
  else if !((emitBody entryState).emitFallthroughReturn
      fd.resultType).breakContinueStack.isEmpty then
    Except.error GenError.controlStackImbalance
  else
    Except.ok
      { linkage := deriveLinkage fd
        paramAttrs := deriveParamAttrs fd
        sretName := sretArgName fd
        paramFirst := firstParamArgIndex fd
        finalState := ((emitBody entryState).emitFallthroughReturn
            fd.resultType).removeAllocaMarker }

/-! ## Well-formedness of the per-function state

Freshness discipline of the arena: every block id in use is below
`nextId`, and branch targets only mention ids in use — true of every
state the generator reaches, and exactly what makes a freshly created
block have no name clash and no predecessors. -/

structure CGState.WF (s : CGState) : Prop where
  blockIdsLt : ∀ p ∈ s.blocks, p.1 < s.nextId
  fnBlocksLt : ∀ b ∈ s.fnBlocks, b < s.nextId
  targetsLt : ∀ p ∈ s.blocks, ∀ i ∈ p.2.insts, ∀ t ∈ i.targets, t < s.nextId
  labelsLt : ∀ q ∈ s.labelMap, q.2 < s.nextId

/-! ## Concrete sample inputs (used to exercise the theorems) -/

/-- A plain `void f(void)` declaration with no attributes. -/
def sampleVoidDecl : FunctionDeclInfo :=
  { dllImportAttr := false, dllExportAttr := false, weakAttr := false
    isInline := false, staticStorage := false, noThrowAttr := false
    noReturnAttr := false, resultType := QualTypeKind.voidTy, numParams := 0 }

/-- A declaration marked both dll-import and static. -/
def sampleImportStaticDecl : FunctionDeclInfo :=
  { dllImportAttr := true, dllExportAttr := false, weakAttr := false
    isInline := false, staticStorage := true, noThrowAttr := false
    noReturnAttr := false, resultType := QualTypeKind.realTy, numParams := 0 }

/-- A declaration marked both non-throwing and non-returning. -/
def sampleNoThrowNoReturnDecl : FunctionDeclInfo :=
  { dllImportAttr := false, dllExportAttr := false, weakAttr := false
    isInline := false, staticStorage := false, noThrowAttr := true
    noReturnAttr := true, resultType := QualTypeKind.voidTy, numParams := 0 }

/-- A body emitter that generates three uniformly nested loops, each
followed by its natural exit, and touches nothing else. -/
def sampleEmitBody : CGState → CGState :=
  fun s => (s.applyStackOps (nestedLoopOps 3)).getD s

/-! ## Arena lookup lemmas -/

theorem lookupBlock_eq_none {l : List (Nat × BasicBlock)} {k : Nat}
    (h : ∀ p ∈ l, p.1 ≠ k) : lookupBlock l k = none := by
  induction l with
  | nil => rfl
  | cons p ps ih =>
    simp only [lookupBlock, if_neg (h p (List.mem_cons_self p ps))]
    exact ih fun q hq => h q (List.mem_cons_of_mem p hq)

theorem lookupBlock_append_of_none {l1 : List (Nat × BasicBlock)}
    (l2 : List (Nat × BasicBlock)) {k : Nat} (h : lookupBlock l1 k = none) :
    lookupBlock (l1 ++ l2) k = lookupBlock l2 k := by
  induction l1 with
  | nil => rfl
  | cons p ps ih =>
    simp only [lookupBlock] at h
    by_cases hp : p.1 = k
    · simp [hp] at h
    · simp only [List.cons_append, lookupBlock, if_neg hp] at *
      exact ih h

theorem lookupBlock_append_of_some {l1 : List (Nat × BasicBlock)}
    (l2 : List (Nat × BasicBlock)) {k : Nat} {b : BasicBlock}
    (h : lookupBlock l1 k = some b) :
    lookupBlock (l1 ++ l2) k = some b := by
  induction l1 with
  | nil => simp [lookupBlock] at h
  | cons p ps ih =>
    simp only [lookupBlock] at h
    by_cases hp : p.1 = k
    · simp only [List.cons_append, lookupBlock, if_pos hp]
      simpa [hp] using h
    · simp only [List.cons_append, lookupBlock, if_neg hp] at *
      exact ih h

theorem lookupBlock_mem {l : List (Nat × BasicBlock)} {k : Nat} {b : BasicBlock}
    (h : lookupBlock l k = some b) : (k, b) ∈ l := by
  induction l with
  | nil => simp [lookupBlock] at h
  | cons p ps ih =>
    simp only [lookupBlock] at h
    by_cases hp : p.1 = k
    · rw [if_pos hp] at h
      have hb : p.2 = b := Option.some.inj h
      exact List.mem_cons.mpr (Or.inl (by rw [← hp, ← hb]))
    · exact List.mem_cons.mpr (Or.inr (ih (by simpa [if_neg hp] using h)))

theorem lookupBlock_filter_ne {l : List (Nat × BasicBlock)} (b : Nat) :
    lookupBlock (l.filter fun p => p.1 ≠ b) b = none := by
  induction l with
  | nil => rfl
  | cons p ps ih =>
    by_cases hp : p.1 = b
    · simpa [List.filter_cons, hp] using ih
    · simpa [List.filter_cons, hp, lookupBlock] using ih

theorem lookupBlock_filter_ne_of_ne {l : List (Nat × BasicBlock)} {b k : Nat}
    (hk : k ≠ b) :
    lookupBlock (l.filter fun p => p.1 ≠ b) k = lookupBlock l k := by
  induction l with
  | nil => rfl
  | cons p ps ih =>
    by_cases hp : p.1 = b
    · have hpk : ¬ p.1 = k := fun hc => hk (hc ▸ hp)
      simpa [List.filter_cons, hp, lookupBlock, hpk, hk, Ne.symm hk] using ih
    · by_cases hpk : p.1 = k
      · simp [List.filter_cons, hp, lookupBlock, hpk, hk, Ne.symm hk]
      · simpa [List.filter_cons, hp, lookupBlock, hpk, hk, Ne.symm hk] using ih

theorem lookupBlock_map_modify (l : List (Nat × BasicBlock)) (b : Nat)
    (f : BasicBlock → BasicBlock) (k : Nat) :
    lookupBlock (l.map fun p => if p.1 = b then (p.1, f p.2) else p) k =
      (lookupBlock l k).map fun blk => if k = b then f blk else blk := by
  induction l with
  | nil => rfl
  | cons p ps ih =>
    by_cases hpb : p.1 = b
    · by_cases hpk : p.1 = k
      · have hkb : k = b := by rw [← hpk, hpb]
        simp [List.map_cons, lookupBlock, hpb, hpk, hkb]
      · have hbk : ¬ b = k := fun hc => hpk (by rw [hpb, hc])
        simp [List.map_cons, lookupBlock, hpb, hpk, hbk, ih]
    · by_cases hpk : p.1 = k
      · have hkb : k ≠ b := fun hc => hpb (by rw [hpk, hc])
        simp [List.map_cons, lookupBlock, hpb, hpk, hkb]
      · simp [List.map_cons, lookupBlock, hpb, hpk, ih]

/-! ## State-operation lemmas -/

namespace CGState

theorem findBlock_modifyBlock (s : CGState) (b : Nat)
    (f : BasicBlock → BasicBlock) (k : Nat) :
    (s.modifyBlock b f).findBlock k =
      (s.findBlock k).map fun blk => if k = b then f blk else blk :=
  lookupBlock_map_modify s.blocks b f k

theorem fnBlocks_modifyBlock (s : CGState) (b : Nat)
    (f : BasicBlock → BasicBlock) :
    (s.modifyBlock b f).fnBlocks = s.fnBlocks := rfl

theorem curBlock_modifyBlock (s : CGState) (b : Nat)
    (f : BasicBlock → BasicBlock) :
    (s.modifyBlock b f).curBlock = s.curBlock := rfl

theorem feedsInto_modifyBlock_of_insts_eq (s : CGState) (b : Nat)
    (f : BasicBlock → BasicBlock) (hf : ∀ blk, (f blk).insts = blk.insts)
    (a k : Nat) :
    (s.modifyBlock b f).feedsInto a k = s.feedsInto a k := by
  unfold feedsInto
  rw [show (s.modifyBlock b f).findBlock a =
        (s.findBlock a).map fun blk => if a = b then f blk else blk from
      findBlock_modifyBlock s b f a]
  cases h : s.findBlock a with
  | none => rfl
  | some blk =>
    by_cases hab : a = b <;> simp [hab, hf]

theorem preds_modifyBlock_of_insts_eq (s : CGState) (b : Nat)
    (f : BasicBlock → BasicBlock) (hf : ∀ blk, (f blk).insts = blk.insts)
    (k : Nat) :
    (s.modifyBlock b f).preds k = s.preds k := by
  unfold preds
  rw [fnBlocks_modifyBlock]
  exact List.filter_congr fun a _ => by
    rw [feedsInto_modifyBlock_of_insts_eq s b f hf a k]

theorem isDummyBlock_modifyBlock_of_insts_eq (s : CGState) (b : Nat)
    (f : BasicBlock → BasicBlock) (hf : ∀ blk, (f blk).insts = blk.insts)
    (k : Nat) :
    (s.modifyBlock b f).isDummyBlock k = s.isDummyBlock k := by
  unfold isDummyBlock
  rw [findBlock_modifyBlock, preds_modifyBlock_of_insts_eq s b f hf]
  cases h : s.findBlock k with
  | none => rfl
  | some blk => by_cases hkb : k = b <;> simp [hkb, hf]

theorem isDummyBlock_elim {s : CGState} {b : Nat}
    (h : s.isDummyBlock b = true) :
    ∃ blk, s.findBlock b = some blk ∧ blk.insts = [] ∧ s.preds b = [] := by
  unfold isDummyBlock at h
  cases hf : s.findBlock b with
  | none => rw [hf] at h; exact absurd h (by simp)
  | some blk =>
    rw [hf] at h
    simp only [Bool.and_eq_true, List.isEmpty_iff] at h
    exact ⟨blk, rfl, h.1, h.2⟩

theorem findBlock_newBlock_self (s : CGState) (n : String) (h : s.WF) :
    (s.newBlock n).1.findBlock (s.newBlock n).2 =
      some { name := n, insts := [] } := by
  unfold newBlock findBlock
  simp only
  rw [lookupBlock_append_of_none _
    (lookupBlock_eq_none fun p hp => Nat.ne_of_lt (h.blockIdsLt p hp))]
  simp [lookupBlock]

theorem findBlock_newBlock_old (s : CGState) (n : String) {k : Nat}
    {blk : BasicBlock} (hk : s.findBlock k = some blk) :
    (s.newBlock n).1.findBlock k = some blk :=
  lookupBlock_append_of_some _ hk

theorem fnBlocks_newBlock (s : CGState) (n : String) :
    (s.newBlock n).1.fnBlocks = s.fnBlocks := rfl

/-- Under well-formedness, no existing instruction branches to the
fresh id, so a block reached only through it has no predecessors. -/
theorem feedsInto_newBlock_fresh (s : CGState) (n : String) (h : s.WF)
    (a : Nat) :
    (s.newBlock n).1.feedsInto a (s.newBlock n).2 = false := by
  unfold feedsInto
  cases hf : (s.newBlock n).1.findBlock a with
  | none => rfl
  | some blk =>
    simp only [List.any_eq_false, decide_eq_true_eq]
    intro i hi hmem
    have hab : (a, blk) ∈ (s.newBlock n).1.blocks := lookupBlock_mem hf
    have hsplit : (s.newBlock n).1.blocks =
        s.blocks ++ [(s.nextId, { name := n, insts := [] })] := rfl
    rw [hsplit] at hab
    rcases List.mem_append.mp hab with hold | hnew
    · exact absurd (h.targetsLt (a, blk) hold i hi _ hmem) (Nat.lt_irrefl _)
    · have hblk : blk = { name := n, insts := [] } :=
        congrArg Prod.snd (List.mem_singleton.mp hnew)
      rw [hblk] at hi
      simp at hi

theorem findBlock_eraseBlock_self (s : CGState) (b : Nat) :
    (s.eraseBlock b).findBlock b = none :=
  lookupBlock_filter_ne b

theorem findBlock_eraseBlock_of_ne (s : CGState) {b k : Nat} (hk : k ≠ b) :
    (s.eraseBlock b).findBlock k = s.findBlock k :=
  lookupBlock_filter_ne_of_ne hk

theorem not_mem_fnBlocks_eraseBlock (s : CGState) (b : Nat) :
    b ∉ (s.eraseBlock b).fnBlocks := by
  intro hmem
  have h := List.mem_filter.mp hmem
  simp at h

theorem mem_fnBlocks_eraseBlock_of_ne (s : CGState) {b k : Nat}
    (hk : k ≠ b) (hmem : k ∈ s.fnBlocks) :
    k ∈ (s.eraseBlock b).fnBlocks :=
  List.mem_filter.mpr ⟨hmem, by simpa using hk⟩

theorem findBlock_appendInst_self (s : CGState) {b : Nat} {blk : BasicBlock}
    (i : Inst) (hblk : s.findBlock b = some blk) :
    (s.appendInst b i).findBlock b =
      some { blk with insts := blk.insts ++ [i] } := by
  rw [show s.appendInst b i =
        s.modifyBlock b (fun blk => { blk with insts := blk.insts ++ [i] })
      from rfl]
  rw [findBlock_modifyBlock, hblk]
  simp

theorem emitFallthroughReturn_of_dummy {s : CGState}
    (hd : s.isDummyBlock s.curBlock = true) (retTy : QualTypeKind) :
    s.emitFallthroughReturn retTy = s.eraseBlock s.curBlock := by
  unfold emitFallthroughReturn
  simp [hd]

theorem emitFallthroughReturn_of_void {s : CGState}
    (hd : s.isDummyBlock s.curBlock = false) :
    s.emitFallthroughReturn QualTypeKind.voidTy =
      s.appendInst s.curBlock Inst.retVoid := by
  unfold emitFallthroughReturn
  simp [hd]

theorem emitFallthroughReturn_of_nonvoid {s : CGState}
    (hd : s.isDummyBlock s.curBlock = false) {retTy : QualTypeKind}
    (hv : retTy ≠ QualTypeKind.voidTy) :
    s.emitFallthroughReturn retTy =
      s.appendInst s.curBlock (Inst.retUndef retTy) := by
  unfold emitFallthroughReturn
  simp [hd, hv]

theorem StartBlock_of_dummy {s : CGState}
    (hd : s.isDummyBlock s.curBlock = true) (n : String) :
    s.StartBlock n = s.renameBlock s.curBlock n := by
  unfold StartBlock
  simp [hd]

theorem StartBlock_of_not_dummy {s : CGState}
    (hd : s.isDummyBlock s.curBlock = false) (n : String) :
    s.StartBlock n = (s.newBlock n).1.EmitBlock (s.newBlock n).2 := by
  unfold StartBlock
  simp [hd]

/-- After any `StartBlock` the insertion cursor sits in a dummy block:
either the old dummy block was renamed in place (renaming changes
neither instructions nor edges), or a fresh empty block with no
predecessors was started. -/
theorem isDummy_StartBlock (s : CGState) (n : String) (h : s.WF) :
    (s.StartBlock n).isDummyBlock (s.StartBlock n).curBlock = true := by
  unfold StartBlock
  by_cases hd : s.isDummyBlock s.curBlock = true
  · rw [if_neg (by simp [hd])]
    have hcur : (s.renameBlock s.curBlock n).curBlock = s.curBlock := rfl
    rw [hcur]
    rw [show s.renameBlock s.curBlock n =
          s.modifyBlock s.curBlock (fun blk => { blk with name := n }) from rfl]
    rw [isDummyBlock_modifyBlock_of_insts_eq s s.curBlock
          (fun blk => { blk with name := n }) (fun _ => rfl)]
    exact hd
  · rw [if_pos (by simp [hd])]
    have hcur : ((s.newBlock n).1.EmitBlock (s.newBlock n).2).curBlock =
        (s.newBlock n).2 := rfl
    rw [hcur]
    have hfind : ((s.newBlock n).1.EmitBlock (s.newBlock n).2).findBlock
        ((s.newBlock n).2) = some { name := n, insts := [] } :=
      findBlock_newBlock_self s n h
    have hpreds : ((s.newBlock n).1.EmitBlock (s.newBlock n).2).preds
        ((s.newBlock n).2) = [] := by
      unfold preds
      rw [List.filter_eq_nil_iff]
      intro a _
      have hfresh := feedsInto_newBlock_fresh s n h a
      simpa using hfresh
    unfold isDummyBlock
    rw [hfind, hpreds]
    simp

end CGState

/-! ## Control-stack trace lemmas -/

theorem runStackOps_append (a b : List StackOp) (st : List BreakContinue) :
    runStackOps (a ++ b) st =
      (runStackOps a st).bind fun st2 => runStackOps b st2 := by
  induction a generalizing st with
  | nil => rfl
  | cons op ops ih =>
    cases op with
    | pushOp f =>
      simp only [List.cons_append, runStackOps]
      exact ih (f :: st)
    | popOp =>
      cases st with
      | nil => rfl
      | cons f rest =>
        simp only [List.cons_append, runStackOps]
        exact ih rest

/-- A balanced trace restores the control stack it started from. -/
theorem runStackOps_balanced {ops : List StackOp} (h : BalancedOps ops) :
    ∀ st, runStackOps ops st = some st := by
  induction h with
  | nil => intro st; rfl
  | frame f hb ih =>
    intro st
    simp [runStackOps, runStackOps_append, ih]
  | seq ha hb iha ihb =>
    intro st
    rw [runStackOps_append, iha st]
    exact ihb st

theorem nestedLoopOps_balanced (n : Nat) : BalancedOps (nestedLoopOps n) := by
  induction n with
  | zero => exact BalancedOps.nil
  | succ n ih => exact BalancedOps.frame _ ih

/-- Running a trace through `pushFrame`/`popFrame` touches only the
break/continue stack, and its effect on that stack is `runStackOps`. -/
theorem CGState.applyStackOps_eq (s : CGState) (ops : List StackOp) :
    s.applyStackOps ops =
      (runStackOps ops s.breakContinueStack).map
        fun st => { s with breakContinueStack := st } := by
  induction ops generalizing s with
  | nil => rfl
  | cons op ops ih =>
    cases op with
    | pushOp f =>
      simp only [CGState.applyStackOps, runStackOps]
      exact ih (s.pushFrame f)
    | popOp =>
      cases h : s.breakContinueStack with
      | nil =>
        simp only [CGState.applyStackOps, CGState.popFrame, h, runStackOps]
        rfl
      | cons f rest =>
        simp only [CGState.applyStackOps, CGState.popFrame, h, runStackOps]
        exact ih { s with breakContinueStack := rest }

theorem CGState.breakContinueStack_emitFallthroughReturn (s : CGState)
    (retTy : QualTypeKind) :
    (s.emitFallthroughReturn retTy).breakContinueStack =
      s.breakContinueStack := by
  unfold CGState.emitFallthroughReturn
  by_cases hd : s.isDummyBlock s.curBlock = true
  · simp [hd, CGState.eraseBlock]
  · by_cases hv : retTy = QualTypeKind.voidTy <;>
      simp [hd, hv, CGState.appendInst, CGState.modifyBlock]

/-! ## Claim theorems -/

/-- C2: the derived linkage follows the precedence chain of lines
71-78, first match wins: the import marker, then the export marker,
then (weak marker or inline), then static storage, then the default
external linkage; in particular a declaration marked both import and
static derives the import linkage. -/
theorem claim_C2 (fd : FunctionDeclInfo) :
    (fd.dllImportAttr = true → deriveLinkage fd = Linkage.dllimport) ∧
    (fd.dllImportAttr = false → fd.dllExportAttr = true →
       deriveLinkage fd = Linkage.dllexport) ∧
    (fd.dllImportAttr = false → fd.dllExportAttr = false →
       (fd.weakAttr = true ∨ fd.isInline = true) →
       deriveLinkage fd = Linkage.weak) ∧
    (fd.dllImportAttr = false → fd.dllExportAttr = false →
       fd.weakAttr = false → fd.isInline = false →
       fd.staticStorage = true → deriveLinkage fd = Linkage.internal) ∧
    (fd.dllImportAttr = false → fd.dllExportAttr = false →
       fd.weakAttr = false → fd.isInline = false →
       fd.staticStorage = false → deriveLinkage fd = Linkage.external) ∧
    (fd.dllImportAttr = true → fd.staticStorage = true →
       deriveLinkage fd = Linkage.dllimport) := by
  refine ⟨?_, ?_, ?_, ?_, ?_, ?_⟩ <;> intros <;> simp_all [deriveLinkage]

/-- C2 exercised: a declaration marked both dll-import and static
derives import linkage. -/
theorem claim_C2_witness :
    deriveLinkage sampleImportStaticDecl = Linkage.dllimport :=
  (claim_C2 sampleImportStaticDecl).2.2.2.2.2 rfl rfl

/-- C3: the parameter attribute vector of lines 85-95 holds no-unwind
exactly when the declaration is marked non-throwing and no-return
exactly when it is marked non-returning; its underlying attribute set
is duplicate-free, and when both markers are set it is exactly
no-unwind followed by no-return. -/
theorem claim_C3 (fd : FunctionDeclInfo) :
    ((deriveParamAttrs fd).map Prod.snd).Nodup ∧
    (ParamAttr.noUnwind ∈ (deriveParamAttrs fd).map Prod.snd ↔
       fd.noThrowAttr = true) ∧
    (ParamAttr.noReturnAttr ∈ (deriveParamAttrs fd).map Prod.snd ↔
       fd.noReturnAttr = true) ∧
    (fd.noThrowAttr = true → fd.noReturnAttr = true →
       (deriveParamAttrs fd).map Prod.snd =
         [ParamAttr.noUnwind, ParamAttr.noReturnAttr]) := by
  cases hT : fd.noThrowAttr <;> cases hR : fd.noReturnAttr <;>
    simp [deriveParamAttrs, hT, hR]

/-- C3 exercised: with both markers set the attribute set is exactly
no-unwind and no-return. -/
theorem claim_C3_witness :
    (deriveParamAttrs sampleNoThrowNoReturnDecl).map Prod.snd =
      [ParamAttr.noUnwind, ParamAttr.noReturnAttr] :=
  (claim_C3 sampleNoThrowNoReturnDecl).2.2.2 rfl rfl

/-- C7: invoking `GenerateCode` on a function that already holds a body
(line 67's assertion: the target is no longer a declaration) is a fatal
precondition error producing no output. -/
theorem claim_C7 (fd : FunctionDeclInfo) (numIRArgs : Nat)
    (emitBody : CGState → CGState) :
    generateCode fd false numIRArgs emitBody =
      Except.error GenError.preconditionViolation := rfl

/-- C10: `hasAggregateLLVMType` is false on void, real, pointer,
reference, vector and function types, so a void-returning function gets
no `agg.result` out-parameter and its declared parameters bind starting
at IR argument 0. -/
theorem claim_C10 :
    hasAggregateLLVMType QualTypeKind.voidTy = false ∧
    hasAggregateLLVMType QualTypeKind.realTy = false ∧
    hasAggregateLLVMType QualTypeKind.pointerTy = false ∧
    hasAggregateLLVMType QualTypeKind.referenceTy = false ∧
    hasAggregateLLVMType QualTypeKind.vectorTy = false ∧
    hasAggregateLLVMType QualTypeKind.functionTy = false ∧
    (∀ fd : FunctionDeclInfo, fd.resultType = QualTypeKind.voidTy →
       sretArgName fd = none ∧ firstParamArgIndex fd = 0) := by
  refine ⟨rfl, rfl, rfl, rfl, rfl, rfl, ?_⟩
  intro fd h
  constructor <;>
    simp [sretArgName, firstParamArgIndex, h, hasAggregateLLVMType,
      QualTypeKind.isVoidType]

/-- C10 exercised: a concrete void-returning declaration gets no
`agg.result` argument and binds parameters from IR argument 0. -/
theorem claim_C10_witness :
    sretArgName sampleVoidDecl = none ∧
    firstParamArgIndex sampleVoidDecl = 0 :=
  claim_C10.2.2.2.2.2.2 sampleVoidDecl rfl

/-- C1: after the body emitter returns, the fallthrough step of lines
126-137 either discards the insertion block (when it is dummy) or
appends to it exactly one terminator: a void return when the result
type is void, else a return of an undefined — not zero-initialized —
value of the result type. -/
theorem claim_C1 (s : CGState) (retTy : QualTypeKind) (blk : BasicBlock)
    (hblk : s.findBlock s.curBlock = some blk) :
    (s.isDummyBlock s.curBlock = true →
       (s.emitFallthroughReturn retTy).findBlock s.curBlock = none ∧
       s.curBlock ∉ (s.emitFallthroughReturn retTy).fnBlocks) ∧
    (s.isDummyBlock s.curBlock = false →
       (s.emitFallthroughReturn retTy).findBlock s.curBlock =
         some { blk with insts := blk.insts ++
             [if retTy = QualTypeKind.voidTy then Inst.retVoid
              else Inst.retUndef retTy] } ∧
       Inst.isRet (if retTy = QualTypeKind.voidTy then Inst.retVoid
           else Inst.retUndef retTy) = true ∧
       (∀ ty, (if retTy = QualTypeKind.voidTy then Inst.retVoid
           else Inst.retUndef retTy) ≠ Inst.retZero ty)) := by
  constructor
  · intro hd
    rw [CGState.emitFallthroughReturn_of_dummy hd]
    exact ⟨CGState.findBlock_eraseBlock_self s s.curBlock,
           CGState.not_mem_fnBlocks_eraseBlock s s.curBlock⟩
  · intro hd
    by_cases hv : retTy = QualTypeKind.voidTy
    · subst hv
      rw [CGState.emitFallthroughReturn_of_void hd]
      refine ⟨?_, by simp [Inst.isRet], fun ty => by simp⟩
      have h2 := CGState.findBlock_appendInst_self s Inst.retVoid hblk
      simpa using h2
    · rw [CGState.emitFallthroughReturn_of_nonvoid hd hv]
      refine ⟨?_, by simp [hv, Inst.isRet], fun ty => by simp [hv]⟩
      have h2 := CGState.findBlock_appendInst_self s (Inst.retUndef retTy) hblk
      simpa [hv] using h2

/-- C1 exercised on the freshly set-up entry state with a non-void
result type: the synthesized terminator is a return of an undefined
value. -/
theorem claim_C1_witness :
    (entryState.emitFallthroughReturn QualTypeKind.realTy).findBlock
        entryState.curBlock =
      some { name := "entry",
             insts := [Inst.allocaMarker, Inst.retUndef QualTypeKind.realTy] } := by
  have h := (claim_C1 entryState QualTypeKind.realTy
      { name := "entry", insts := [Inst.allocaMarker] } rfl).2 (by decide)
  simpa using h.1

/-- C6: a block is dummy exactly when it has no instructions and no
predecessors, and this one predicate is what decides both `StartBlock`'s
block reuse and the fallthrough step's block discard. -/
theorem claim_C6 (s : CGState) (b : Nat) (blk : BasicBlock)
    (hblk : s.findBlock b = some blk) :
    (s.isDummyBlock b = true ↔ blk.insts = [] ∧ s.preds b = []) ∧
    (∀ n : String,
       (s.isDummyBlock s.curBlock = true →
          s.StartBlock n = s.renameBlock s.curBlock n) ∧
       (s.isDummyBlock s.curBlock = false →
          s.StartBlock n = (s.newBlock n).1.EmitBlock (s.newBlock n).2)) ∧
    (∀ retTy : QualTypeKind,
       (s.isDummyBlock s.curBlock = true →
          s.emitFallthroughReturn retTy = s.eraseBlock s.curBlock) ∧
       (s.isDummyBlock s.curBlock = false → retTy = QualTypeKind.voidTy →
          s.emitFallthroughReturn retTy =
            s.appendInst s.curBlock Inst.retVoid) ∧
       (s.isDummyBlock s.curBlock = false → retTy ≠ QualTypeKind.voidTy →
          s.emitFallthroughReturn retTy =
            s.appendInst s.curBlock (Inst.retUndef retTy))) := by
  refine ⟨?_, ?_, ?_⟩
  · unfold CGState.isDummyBlock
    rw [hblk]
    simp [List.isEmpty_iff]
  · intro n
    exact ⟨fun hd => CGState.StartBlock_of_dummy hd n,
           fun hd => CGState.StartBlock_of_not_dummy hd n⟩
  · intro retTy
    refine ⟨fun hd => CGState.emitFallthroughReturn_of_dummy hd retTy,
            fun hd hv => ?_,
            fun hd hv => CGState.emitFallthroughReturn_of_nonvoid hd hv⟩
    subst hv
    exact CGState.emitFallthroughReturn_of_void hd

/-- C6 exercised on the entry state: the entry block holds the
allocation anchor, so it is not dummy, and the isDummy decision matches
the no-instructions-and-no-predecessors characterization. -/
theorem claim_C6_witness :
    (entryState.isDummyBlock entryBlockId = true ↔
       ([Inst.allocaMarker] : List Inst) = [] ∧
       entryState.preds entryBlockId = []) := by
  have h := claim_C6 entryState entryBlockId
    { name := "entry", insts := [Inst.allocaMarker] } rfl
  exact h.1

/-- C9: a block holding the allocation anchor is never dummy, so the
fallthrough step's dummy-block discard can never erase it: it stays in
the function's block ordering, is still found in the arena, and still
holds the anchor; the generator's setup establishes exactly this for
the entry block. -/
theorem claim_C9 (s : CGState) (e : Nat) (blk : BasicBlock)
    (retTy : QualTypeKind) (he : s.findBlock e = some blk)
    (hanchor : Inst.allocaMarker ∈ blk.insts) (hin : e ∈ s.fnBlocks) :
    s.isDummyBlock e = false ∧
    e ∈ (s.emitFallthroughReturn retTy).fnBlocks ∧
    (∃ blk2, (s.emitFallthroughReturn retTy).findBlock e = some blk2 ∧
       Inst.allocaMarker ∈ blk2.insts) ∧
    entryState.findBlock entryBlockId =
      some { name := "entry", insts := [Inst.allocaMarker] } := by
  have hne : blk.insts ≠ [] := fun hc => by simp [hc] at hanchor
  have hdummy : s.isDummyBlock e = false := by
    unfold CGState.isDummyBlock
    rw [he]
    cases hl : blk.insts with
    | nil => exact absurd hl hne
    | cons i is => simp [hl]
  refine ⟨hdummy, ?_, ?_, rfl⟩
  case _ =>
    by_cases hd : s.isDummyBlock s.curBlock = true
    · have hcur : e ≠ s.curBlock := fun hc => by
        rw [← hc] at hd
        rw [hdummy] at hd
        exact Bool.false_ne_true hd
      rw [CGState.emitFallthroughReturn_of_dummy hd]
      exact CGState.mem_fnBlocks_eraseBlock_of_ne s hcur hin
    · have hd2 : s.isDummyBlock s.curBlock = false := by
        simpa using hd
      by_cases hv : retTy = QualTypeKind.voidTy
      · subst hv
        rw [CGState.emitFallthroughReturn_of_void hd2]
        exact hin
      · rw [CGState.emitFallthroughReturn_of_nonvoid hd2 hv]
        exact hin
  case _ =>
    by_cases hd : s.isDummyBlock s.curBlock = true
    · have hcur : e ≠ s.curBlock := fun hc => by
        rw [← hc] at hd
        rw [hdummy] at hd
        exact Bool.false_ne_true hd
      rw [CGState.emitFallthroughReturn_of_dummy hd]
      rw [CGState.findBlock_eraseBlock_of_ne s hcur]
      exact ⟨blk, he, hanchor⟩
    · have hd2 : s.isDummyBlock s.curBlock = false := by
        simpa using hd
      have happ : ∀ i : Inst, ∃ blk2,
          (s.appendInst s.curBlock i).findBlock e = some blk2 ∧
          Inst.allocaMarker ∈ blk2.insts := by
        intro i
        rw [show s.appendInst s.curBlock i =
              s.modifyBlock s.curBlock
                (fun bb => { bb with insts := bb.insts ++ [i] }) from rfl]
        rw [CGState.findBlock_modifyBlock, he]
        by_cases hec : e = s.curBlock
        · refine ⟨{ blk with insts := blk.insts ++ [i] }, ?_, ?_⟩
          · simp [hec]
          · simp [hanchor]
        · exact ⟨blk, by simp [hec], hanchor⟩
      by_cases hv : retTy = QualTypeKind.voidTy
      · subst hv
        rw [CGState.emitFallthroughReturn_of_void hd2]
        exact happ Inst.retVoid
      · rw [CGState.emitFallthroughReturn_of_nonvoid hd2 hv]
        exact happ (Inst.retUndef retTy)

/-- C9 exercised on the entry state with a void result: the entry block
survives the fallthrough step because it holds the anchor. -/
theorem claim_C9_witness :
    entryState.isDummyBlock entryBlockId = false ∧
    entryBlockId ∈
      (entryState.emitFallthroughReturn QualTypeKind.voidTy).fnBlocks := by
  have h := claim_C9 entryState entryBlockId
    { name := "entry", insts := [Inst.allocaMarker] }
    QualTypeKind.voidTy rfl (by decide) (by decide)
  exact ⟨h.1, h.2.1⟩

/-- C4: looking a label up again returns the identical block and leaves
the state untouched; the block created on first reference is absent
from the function's block ordering and empty; and the lookup leaves
every pre-existing block's contents unchanged, so a forward-referenced
label's block gains instructions only once the labeled statement is
emitted. -/
theorem claim_C4 (s : CGState) (l : Nat) (n : String) (h : s.WF) :
    ((s.getBasicBlockForLabel l n).1.getBasicBlockForLabel l n =
       s.getBasicBlockForLabel l n) ∧
    (lookupLabel s.labelMap l = none →
       (s.getBasicBlockForLabel l n).2 ∉
           (s.getBasicBlockForLabel l n).1.fnBlocks ∧
       (s.getBasicBlockForLabel l n).1.findBlock
           (s.getBasicBlockForLabel l n).2 =
         some { name := n, insts := [] } ∧
       (s.getBasicBlockForLabel l n).1.fnBlocks = s.fnBlocks) ∧
    (∀ b blk, s.findBlock b = some blk →
       (s.getBasicBlockForLabel l n).1.findBlock b = some blk) := by
  cases hl : lookupLabel s.labelMap l with
  | some b =>
    have hstate : s.getBasicBlockForLabel l n = (s, b) := by
      unfold CGState.getBasicBlockForLabel
      rw [hl]
    rw [hstate]
    exact ⟨hstate, fun hc => absurd hc (by simp), fun b2 blk hb => hb⟩
  | none =>
    have hstate : s.getBasicBlockForLabel l n =
        ({ (s.newBlock n).1 with
             labelMap := (l, (s.newBlock n).2) :: (s.newBlock n).1.labelMap },
         (s.newBlock n).2) := by
      unfold CGState.getBasicBlockForLabel
      rw [hl]
    rw [hstate]
    refine ⟨?_, fun _ => ⟨?_, ?_, rfl⟩, fun b blk hb => ?_⟩
    · unfold CGState.getBasicBlockForLabel
      simp [lookupLabel]
    · intro hmem
      exact Nat.lt_irrefl _ (h.fnBlocksLt _ hmem)
    · exact CGState.findBlock_newBlock_self s n h
    · exact lookupBlock_append_of_some _ hb

/-- C4 exercised on the entry state with a fresh label: the first and
second lookups agree and the created block stays out of the function's
block ordering. -/
theorem claim_C4_witness :
    ((entryState.getBasicBlockForLabel 7 "L").1.getBasicBlockForLabel 7 "L" =
       entryState.getBasicBlockForLabel 7 "L") ∧
    (entryState.getBasicBlockForLabel 7 "L").2 ∉
      (entryState.getBasicBlockForLabel 7 "L").1.fnBlocks := by
  have h := claim_C4 entryState 7 "L"
    ⟨by decide, by decide, by decide, by decide⟩
  exact ⟨h.1, (h.2.1 rfl).1⟩

/-- C5: after a `StartBlock` the insertion cursor always sits in a
dummy block, so an immediately following `StartBlock` with no
intervening instruction is exactly an in-place rename: same block id,
same empty instruction sequence, same predecessor list, same block
ordering, no block created. -/
theorem claim_C5 (s : CGState) (n1 n2 : String) (h : s.WF) :
    ((s.StartBlock n1).StartBlock n2 =
       (s.StartBlock n1).renameBlock (s.StartBlock n1).curBlock n2) ∧
    ((s.StartBlock n1).StartBlock n2).curBlock =
      (s.StartBlock n1).curBlock ∧
    ((s.StartBlock n1).findBlock (s.StartBlock n1).curBlock).map
        BasicBlock.insts = some [] ∧
    ((s.StartBlock n1).StartBlock n2).findBlock (s.StartBlock n1).curBlock =
      some { name := n2, insts := [] } ∧
    ((s.StartBlock n1).StartBlock n2).preds (s.StartBlock n1).curBlock =
      (s.StartBlock n1).preds (s.StartBlock n1).curBlock ∧
    ((s.StartBlock n1).StartBlock n2).fnBlocks =
      (s.StartBlock n1).fnBlocks ∧
    ((s.StartBlock n1).StartBlock n2).blocks.length =
      (s.StartBlock n1).blocks.length := by
  have hd : (s.StartBlock n1).isDummyBlock (s.StartBlock n1).curBlock = true :=
    CGState.isDummy_StartBlock s n1 h
  obtain ⟨blk, hfind, hinsts, hpreds⟩ := CGState.isDummyBlock_elim hd
  have heq : (s.StartBlock n1).StartBlock n2 =
      (s.StartBlock n1).renameBlock (s.StartBlock n1).curBlock n2 :=
    CGState.StartBlock_of_dummy hd n2
  have hrename : (s.StartBlock n1).renameBlock (s.StartBlock n1).curBlock n2 =
      (s.StartBlock n1).modifyBlock (s.StartBlock n1).curBlock
        (fun b => { b with name := n2 }) := rfl
  refine ⟨heq, by rw [heq]; rfl, by rw [hfind]; simp [hinsts], ?_, ?_,
          by rw [heq]; rfl, ?_⟩
  · rw [heq, hrename, CGState.findBlock_modifyBlock, hfind]
    simp [hinsts]
  · rw [heq, hrename]
    exact CGState.preds_modifyBlock_of_insts_eq (s.StartBlock n1)
      (s.StartBlock n1).curBlock (fun b => { b with name := n2 })
      (fun _ => rfl) (s.StartBlock n1).curBlock
  · rw [heq, hrename]
    simp [CGState.modifyBlock]

/-- C5 exercised on the entry state: the entry block is non-dummy, so
the first `StartBlock` opens a fresh block and the second call only
renames it. -/
theorem claim_C5_witness :
    ((entryState.StartBlock "a").StartBlock "b").curBlock =
      (entryState.StartBlock "a").curBlock ∧
    ((entryState.StartBlock "a").StartBlock "b").findBlock
        (entryState.StartBlock "a").curBlock =
      some { name := "b", insts := [] } := by
  have h := claim_C5 entryState "a" "b"
    ⟨by decide, by decide, by decide, by decide⟩
  exact ⟨h.2.1, h.2.2.2.1⟩

/-- C8: when every break/continue frame pushed during body emission is
popped by its construct's exit (a balanced trace, e.g. N uniformly
nested loops each followed by its natural exit), the break/continue
stack is empty after the fallthrough step — where line 138 asserts
emptiness, before the allocation anchor is removed — and `GenerateCode`
completes. -/
theorem claim_C8 (fd : FunctionDeclInfo) (numIRArgs : Nat)
    (hargs : firstParamArgIndex fd + fd.numParams ≤ numIRArgs)
    (ops : List StackOp) (hbal : BalancedOps ops)
    (emitBody : CGState → CGState) (s1 : CGState)
    (hemit : emitBody entryState = s1)
    (hrun : entryState.applyStackOps ops = some s1) :
    ((emitBody entryState).emitFallthroughReturn
        fd.resultType).breakContinueStack = [] ∧
    ∃ out, generateCode fd true numIRArgs emitBody = Except.ok out ∧
      out.finalState.breakContinueStack = [] := by
  have hstack : s1.breakContinueStack = [] := by
    rw [CGState.applyStackOps_eq, runStackOps_balanced hbal] at hrun
    have h2 := Option.some.inj hrun
    rw [← h2]
    rfl
  have hafter : ((emitBody entryState).emitFallthroughReturn
      fd.resultType).breakContinueStack = [] := by
    rw [hemit, CGState.breakContinueStack_emitFallthroughReturn, hstack]
  have hgen : generateCode fd true numIRArgs emitBody =
      Except.ok
        { linkage := deriveLinkage fd
          paramAttrs := deriveParamAttrs fd
          sretName := sretArgName fd
          paramFirst := firstParamArgIndex fd
          finalState := ((emitBody entryState).emitFallthroughReturn
              fd.resultType).removeAllocaMarker } := by
    unfold generateCode
    rw [if_neg (by simp), if_neg (Nat.not_lt.mpr hargs),
        if_neg (by simp [hafter])]
  refine ⟨hafter, _, hgen, ?_⟩
  show (((emitBody entryState).emitFallthroughReturn
      fd.resultType).removeAllocaMarker).breakContinueStack = []
  exact hafter

/-- C8 exercised: a body of three uniformly nested loops, each exited
naturally, leaves the control stack empty and generation completes. -/
theorem claim_C8_witness :
    ((sampleEmitBody entryState).emitFallthroughReturn
        QualTypeKind.voidTy).breakContinueStack = [] ∧
    ∃ out, generateCode sampleVoidDecl true 0 sampleEmitBody =
        Except.ok out ∧
      out.finalState.breakContinueStack = [] :=
  claim_C8 sampleVoidDecl 0 (by decide) (nestedLoopOps 3)
    (nestedLoopOps_balanced 3) sampleEmitBody entryState (by decide)
    (by decide)

end CodeGenFunction
